import Mathlib

/-!
Verification of the layered settings-resolution engine in
`src/meltano/core/settings_service.py`.

The Python module is shallowly embedded below.  Python values flowing
through the service (store payloads, defaults, cast results) are modelled
by the inductive type `Value`; Python dictionaries are modelled as
insertion-ordered association lists (`List (String × _)`) with the
operations `dictGet`, `dictHas`, `dictSet`, `dictRemove` reproducing
Python `dict` semantics (lookup of the unique binding, in-place update of
an existing key, append of a new key).

External collaborators of the service (the store managers from
`settings_store.py`, `SettingDefinition` from `setting_definition.py`,
`flatten` from `utils`) are not part of the given sources; the definitions
standing for them carry a doc comment starting with "Modelled from the
spec:" and follow the specification's words for those interfaces.
-/

/-- Python values as they flow through the settings service: `null` models
Python `None`, `obj` models a (string-keyed) dictionary. -/
inductive Value where
  | null
  | str (s : String)
  | int (n : Int)
  | bool (b : Bool)
  | obj (entries : List (String × Value))
deriving Repr

mutual

/-- Structural boolean equality on values (Python `==` on the modelled
values), used to define decidable equality on the nested type. -/
def Value.beq : Value → Value → Bool
  | .null, .null => true
  | .str a, .str b => a == b
  | .int a, .int b => a == b
  | .bool a, .bool b => a == b
  | .obj a, .obj b => Value.beqEntries a b
  | _, _ => false

/-- Structural boolean equality on dictionary entry lists. -/
def Value.beqEntries : List (String × Value) → List (String × Value) → Bool
  | [], [] => true
  | (k, v) :: xs, (j, w) :: ys => k == j && Value.beq v w && Value.beqEntries xs ys
  | _, _ => false

end

/-- Decidable equality on values, through the boolean equality above. -/
instance : DecidableEq Value := fun a b =>
  decidable_of_iff (Value.beq a b = true) (beq_iff a b)
where
  beq_iff : ∀ (a b : Value), (Value.beq a b = true ↔ a = b) := by
    have H := Value.beq.mutual_induct
      (fun a b => (Value.beq a b = true ↔ a = b))
      (fun a b => (Value.beqEntries a b = true ↔ a = b))
    apply (H ?_ ?_ ?_ ?_ ?_ ?_ ?_ ?_ ?_).1
    · simp [Value.beq]
    · intro a b; simp [Value.beq]
    · intro a b; simp [Value.beq]
    · intro a b; simp [Value.beq]
    · intro a b ih; simpa [Value.beq] using ih
    · intro t x h1 h2 h3 h4 h5
      constructor
      · intro hbeq
        exfalso
        cases t <;> cases x <;> first
          | exact h1 rfl rfl
          | exact h2 _ _ rfl rfl
          | exact h3 _ _ rfl rfl
          | exact h4 _ _ rfl rfl
          | exact h5 _ _ rfl rfl
          | simp [Value.beq] at hbeq
      · intro heq
        exfalso
        cases t <;> cases x <;> first
          | exact h1 rfl rfl
          | exact h2 _ _ rfl rfl
          | exact h3 _ _ rfl rfl
          | exact h4 _ _ rfl rfl
          | exact h5 _ _ rfl rfl
          | exact Value.noConfusion heq
    · simp [Value.beqEntries]
    · intro k v xs j w ys ih1 ih2
      simp [Value.beqEntries, ih1, ih2]
    · intro t x h1 h2
      constructor
      · intro hbeq
        exfalso
        cases t <;> cases x <;> first
          | exact h1 rfl rfl
          | (rename_i p xs q ys; exact h2 p.1 p.2 xs q.1 q.2 ys rfl rfl)
          | simp [Value.beqEntries] at hbeq
      · intro heq
        exfalso
        cases t <;> cases x <;> first
          | exact h1 rfl rfl
          | (rename_i p xs q ys; exact h2 p.1 p.2 xs q.1 q.2 ys rfl rfl)
          | simp at heq

/-- Python truthiness (`bool(v)`): `None`, the empty string, zero, `False`
and the empty dict are falsy. -/
def Value.truthy : Value → Bool
  | .null => false
  | .str s => !s.isEmpty
  | .int n => n != 0
  | .bool b => b
  | .obj es => !es.isEmpty

/-- Sentinel value used to prevent leaking sensitive data
(module constant `REDACTED_VALUE = "(redacted)"`). -/
def REDACTED_VALUE : Value := Value.str "(redacted)"

/-- Lookup in a Python-style dictionary: the binding of the key, if any. -/
def dictGet {α : Type} (d : List (String × α)) (k : String) : Option α :=
  (d.find? (fun e => e.1 == k)).map (fun e => e.2)

/-- Key-membership test (`k in d`). -/
def dictHas {α : Type} (d : List (String × α)) (k : String) : Bool :=
  d.any (fun e => e.1 == k)

/-- Python `d[k] = v`: update the existing binding in place, else append. -/
def dictSet {α : Type} (d : List (String × α)) (k : String) (v : α) :
    List (String × α) :=
  if dictHas d k then d.map (fun e => if e.1 == k then (k, v) else e)
  else d ++ [(k, v)]

/-- Python `del d[k]` (ignoring the absent-key error): drop the binding. -/
def dictRemove {α : Type} (d : List (String × α)) (k : String) :
    List (String × α) :=
  d.filter (fun e => !(e.1 == k))

/-- Embedding of the classmethod `SettingsService.unredact`: the
dict comprehension keeping the items whose value is not the sentinel. -/
def unredact (values : List (String × Value)) : List (String × Value) :=
  values.filter (fun e => !(e.2 == REDACTED_VALUE))

/-- Modelled from the spec: the enumeration `SettingValueStore` lives in
`settings_store.py`, which is not among the given sources.  Per the spec
it is an ordered enumeration of concrete store kinds (explicit config
override, process environment, dotenv file, YAML project config, database,
plus the declared-default pseudo-store) together with the virtual `AUTO`
kind. -/
inductive SettingValueStore where
  | config_override
  | env
  | dotenv
  | meltano_yml
  | db
  | default_store
  | auto
deriving Repr, DecidableEq

/-- Modelled from the spec: each concrete store kind owns a precedence
rank; a smaller index means higher precedence (the spec's §8 example has
the environment store beating the YAML store, and every concrete store
beats the declared default). -/
def SettingValueStore.idx : SettingValueStore → Nat
  | .config_override => 0
  | .env => 1
  | .dotenv => 2
  | .meltano_yml => 3
  | .db => 4
  | .default_store => 5
  | .auto => 6

/-- Modelled from the spec: precedence comparison between stores, used
when object assembly promotes the assembled source ("if any nested key's
resolved source has higher precedence ... promote"). -/
def SettingValueStore.overrides (s t : SettingValueStore) : Bool :=
  s.idx < t.idx

/-- Modelled from the spec: one environment-variable name generated for a
setting, with the `negated` marker for boolean toggles whose variable
inverts the value (§3, §6). -/
structure EnvVar where
  key : String
  negated : Bool
deriving Repr, DecidableEq

/-- Modelled from the spec: `SettingDefinition` lives in
`setting_definition.py`, which is not among the given sources.  Per §3 of
the spec it is an immutable descriptor carrying the canonical name, alias
names, kind, extra/redacted flags, default value, casting and
stringification rules, and the env-var name generator over a list of
prefixes. -/
structure SettingDefinition where
  name : String
  aliases : List String
  kind : String
  is_extra : Bool
  is_redacted : Bool
  default_value : Value
  cast_value : Value → Value
  stringify_value : Value → String
  env_vars : List String → List EnvVar

/-- Payloads of the concrete backing stores.  Each concrete store kind
holds a flat mapping from setting name to value. -/
structure StoreWorld where
  config_override : List (String × Value)
  env : List (String × Value)
  dotenv : List (String × Value)
  meltano_yml : List (String × Value)
  db : List (String × Value)
deriving Repr, DecidableEq

/-- Payload of one concrete store (the declared-default and `AUTO`
pseudo-stores own no payload). -/
def StoreWorld.read (w : StoreWorld) (s : SettingValueStore) (name : String) :
    Option Value :=
  match s with
  | .config_override => dictGet w.config_override name
  | .env => dictGet w.env name
  | .dotenv => dictGet w.dotenv name
  | .meltano_yml => dictGet w.meltano_yml name
  | .db => dictGet w.db name
  | .default_store => Option.none
  | .auto => Option.none

/-- Write of one binding into the payload of one concrete store; the
pseudo-stores are untouched (their managers reject writes before this
point). -/
def StoreWorld.write (w : StoreWorld) (s : SettingValueStore) (name : String)
    (v : Value) : StoreWorld :=
  match s with
  | .config_override => { w with config_override := dictSet w.config_override name v }
  | .env => { w with env := dictSet w.env name v }
  | .dotenv => { w with dotenv := dictSet w.dotenv name v }
  | .meltano_yml => { w with meltano_yml := dictSet w.meltano_yml name v }
  | .db => { w with db := dictSet w.db name v }
  | .default_store => w
  | .auto => w

/-- Removal of one binding from the payload of one concrete store. -/
def StoreWorld.remove (w : StoreWorld) (s : SettingValueStore) (name : String) :
    StoreWorld :=
  match s with
  | .config_override => { w with config_override := dictRemove w.config_override name }
  | .env => { w with env := dictRemove w.env name }
  | .dotenv => { w with dotenv := dictRemove w.dotenv name }
  | .meltano_yml => { w with meltano_yml := dictRemove w.meltano_yml name }
  | .db => { w with db := dictRemove w.db name }
  | .default_store => w
  | .auto => w

/-- Clearing of the whole payload of one concrete store (`reset`). -/
def StoreWorld.clear (w : StoreWorld) (s : SettingValueStore) : StoreWorld :=
  match s with
  | .config_override => { w with config_override := [] }
  | .env => { w with env := [] }
  | .dotenv => { w with dotenv := [] }
  | .meltano_yml => { w with meltano_yml := [] }
  | .db => { w with db := [] }
  | .default_store => w
  | .auto => w

/-- Modelled from the spec: the `AUTO` read path of `settings_store.py`
(not among the given sources) tries the concrete kinds in precedence
order and returns the first defined value together with the store that
produced it (§3 "Store", glossary "AUTO resolution"). -/
def autoRead (w : StoreWorld) (name : String) :
    Option (SettingValueStore × Value) :=
  match dictGet w.config_override name with
  | some v => some (.config_override, v)
  | Option.none =>
    match dictGet w.env name with
    | some v => some (.env, v)
    | Option.none =>
      match dictGet w.dotenv name with
      | some v => some (.dotenv, v)
      | Option.none =>
        match dictGet w.meltano_yml name with
        | some v => some (.meltano_yml, v)
        | Option.none =>
          match dictGet w.db name with
          | some v => some (.db, v)
          | Option.none => Option.none

/-- Modelled from the spec: `manager.get` of `settings_store.py` (not
among the given sources).  A concrete store manager returns its own entry
(`None` when absent) and adds no metadata of its own, so the source stays
the one the caller passed; the declared-default manager returns the
definition's default; `AUTO` tries concrete kinds in precedence order and
falls back to the declared default, reporting the store that produced the
value as the resolved source.  The expansion of `expandible_env` inside
store payloads is left unspecified by the spec and is modelled as the
identity (values are returned as stored). -/
def managerGet (w : StoreWorld) (source : SettingValueStore) (name : String)
    (sd : Option SettingDefinition) (_expandible_env : List (String × String)) :
    Value × Option SettingValueStore :=
  match source with
  | .auto =>
    match autoRead w name with
    | some (s, v) => (v, some s)
    | Option.none =>
      ((sd.map (fun d => d.default_value)).getD Value.null,
        some SettingValueStore.default_store)
  | .default_store =>
    ((sd.map (fun d => d.default_value)).getD Value.null, Option.none)
  | s => ((w.read s name).getD Value.null, Option.none)

/-- Failure raised by a store manager asked for a structurally impossible
operation (`StoreNotSupportedError` of `settings_store.py`). -/
inductive StoreError where
  | not_supported (s : SettingValueStore)
deriving Repr, DecidableEq

/-- Modelled from the spec: `manager.set` of `settings_store.py` (not
among the given sources).  Concrete stores write their own payload under
the joined name; per §4.4 and §7 of the spec the `AUTO` fallback applies
to reads only and the declared default is read-only, so their managers
fail writes with the store-not-supported condition, which propagates. -/
def managerSet (w : StoreWorld) (store : SettingValueStore) (name : String)
    (_path : List String) (v : Value) (_sd : Option SettingDefinition) :
    Except StoreError StoreWorld :=
  match store with
  | .auto => .error (.not_supported .auto)
  | .default_store => .error (.not_supported .default_store)
  | s => .ok (w.write s name v)

/-- Modelled from the spec: `manager.unset` of `settings_store.py` (not
among the given sources); same read-only rule for the pseudo-stores. -/
def managerUnset (w : StoreWorld) (store : SettingValueStore) (name : String)
    (_path : List String) (_sd : Option SettingDefinition) :
    Except StoreError StoreWorld :=
  match store with
  | .auto => .error (.not_supported .auto)
  | .default_store => .error (.not_supported .default_store)
  | s => .ok (w.remove s name)

/-- Modelled from the spec: `manager.reset` of `settings_store.py` (not
among the given sources); same read-only rule for the pseudo-stores. -/
def managerReset (w : StoreWorld) (store : SettingValueStore) :
    Except StoreError StoreWorld :=
  match store with
  | .auto => .error (.not_supported .auto)
  | .default_store => .error (.not_supported .default_store)
  | s => .ok (w.clear s)

/-- State of one `SettingsService` instance.  The abstract capabilities a
concrete variant supplies (the declared catalog, the YAML config, the
env-var prefixes) are fields; the abstract property returning the
flattened YAML config is modelled as the already-flattened mapping, since
both the raw config and the external helper flattening it live outside
the given sources.  The field `generic_env_name` embeds the property
`_generic_env_prefix` of the source, the optional generic (non-variant)
environment-variable prefix.  The aliasing behaviour of the override
default arguments is modelled separately below for claim C9; here they
are plain fields. -/
structure SettingsService where
  show_hidden : Bool
  env_override : List (String × Value)
  config_override : List (String × Value)
  decl_defs : List SettingDefinition
  flat_meltano_yml_config : List (String × Value)
  env_prefix_list : List String
  generic_env_name : Option String
  setting_defs_cache : Option (List SettingDefinition)

/-- Synthesized definition for a config key with no declared definition.
Fields beyond the name are unspecified by the spec and defaulted; per the
glossary an undeclared, plugin/user-supplied setting is an extra. -/
def missingDef (name : String) : SettingDefinition :=
  { name
    aliases := []
    kind := ""
    is_extra := true
    is_redacted := false
    default_value := Value.null
    cast_value := id
    stringify_value := fun _ => ""
    env_vars := fun _ => [] }

/-- Modelled from the spec: `SettingDefinition.from_missing` lives in
`setting_definition.py`, which is not among the given sources.  Per §4.1
of the spec it synthesizes a definition for every key of the flattened
YAML config that has no declared definition. -/
def from_missing (decl : List SettingDefinition)
    (flat : List (String × Value)) : List SettingDefinition :=
  (flat.filter (fun kv => !(decl.any (fun d => d.name == kv.1)))).map
    (fun kv => missingDef kv.1)

/-- Merged catalog computed on the first `definitions` call: declared
definitions with hidden ones dropped unless `show_hidden`, extended with
the synthesized definitions for undeclared config keys. -/
def definitionsMerge (svc : SettingsService) : List SettingDefinition :=
  (svc.decl_defs.filter (fun s => !(s.kind == "hidden") || svc.show_hidden))
    ++ from_missing svc.decl_defs svc.flat_meltano_yml_config

/-- Embedding of `SettingsService.definitions`: returns the (possibly
extras-filtered) catalog together with the instance state after the call,
whose `_setting_defs` cache has been populated on first use. -/
def definitions (svc : SettingsService) (extras : Option Bool) :
    List SettingDefinition × SettingsService :=
  let pair :=
    match svc.setting_defs_cache with
    | some l => (l, svc)
    | Option.none =>
      (definitionsMerge svc,
        { svc with setting_defs_cache := some (definitionsMerge svc) })
  match extras with
  | Option.none => pair
  | some b =>
    (pair.1.filter (fun s => (b && s.is_extra) || (!b && !s.is_extra)), pair.2)

/-- Embedding of `SettingsService.find_setting`: the first definition of
the catalog whose canonical name or aliases match exactly; `Option.none`
models the raised `SettingMissingError`. -/
def find_setting (svc : SettingsService) (name : String) :
    Option SettingDefinition :=
  ((definitions svc Option.none).1).find?
    (fun s => s.name == name || s.aliases.contains name)

/-- Embedding of `SettingsService.setting_env_vars`: the definition's
env-var names over the service prefixes, with the generic one appended
when requested and configured. -/
def setting_env_vars (svc : SettingsService) (sd : SettingDefinition)
    (include_generic : Bool) : List EnvVar :=
  let prefixes := svc.env_prefix_list
  let prefixes :=
    if include_generic then
      match svc.generic_env_name with
      | some p => prefixes ++ [p]
      | Option.none => prefixes
    else prefixes
  sd.env_vars prefixes

/-- Metadata envelope built by the read path (`get_with_metadata`): the
Python dict keys `name`, `source`, `setting`, `uncast_value`, `redacted`;
an absent `uncast_value` key is `Option.none` and an absent `redacted` key
is `false`. -/
structure Metadata where
  name : String
  source : SettingValueStore
  setting : Option SettingDefinition
  uncast_value : Option Value
  redacted : Bool

/-- Embedding of lines 229-238 of `get_with_metadata`: cast the value via
the definition, recording the pre-cast value under `uncast_value` when
casting changed it, then — strictly afterwards — replace a truthy value of
a redacted definition by the sentinel when redaction was requested. -/
def castAndRedact (sd : SettingDefinition) (redacted : Bool) (v : Value)
    (md : Metadata) : Value × Metadata :=
  let cast_value := sd.cast_value v
  let step :=
    if cast_value = v then (v, md)
    else (cast_value, { md with uncast_value := some v })
  if redacted && step.1.truthy && sd.is_redacted then
    (REDACTED_VALUE, { step.2 with redacted := true })
  else step

/-- One entry of the flattened nested config consulted during object
assembly: prefix-stripped nested key, resolved value, metadata. -/
abbrev ConfigEntry := String × Value × Metadata

/-- Promotion of the assembled object source by one nested source. -/
def promoteSource (s t : SettingValueStore) : SettingValueStore :=
  if t.overrides s then t else s

/-- One step of the object-assembly loop of `get_with_metadata` (lines
215-223): a nested key already present is skipped entirely, otherwise its
value is added and its source may promote the object's overall source. -/
def assembleStep (acc : List (String × Value) × SettingValueStore)
    (e : ConfigEntry) : List (String × Value) × SettingValueStore :=
  if dictHas acc.1 e.1 then acc
  else (acc.1 ++ [(e.1, e.2.1)], promoteSource acc.2 e.2.2.source)

/-- Embedding of the object-assembly loop of `get_with_metadata` (lines
206-223): fold the flattened nested configs of the definition's name and
aliases, starting from the empty mapping and the declared-default
source. -/
def assembleObject (keys : List String)
    (nested : String → List ConfigEntry) :
    List (String × Value) × SettingValueStore :=
  ((keys.map nested).flatten).foldl assembleStep
    ([], SettingValueStore.default_store)

/-- Embedding of `SettingsService.get_with_metadata`.  The two recursive
self-calls of the source (the non-extra `as_env` expansion environment for
extra settings, and the per-prefix `config_with_metadata` used by object
assembly) are taken as the parameters `extrasEnv` and `nested`; the fuel
wrapper `get_with_metadata` below ties that knot exactly as the source
does. -/
def get_with_metadata_core (svc : SettingsService) (w : StoreWorld)
    (name : String) (redacted : Bool) (source : SettingValueStore)
    (setting_def : Option SettingDefinition)
    (nested : String → List ConfigEntry)
    (extrasEnv : List (String × String)) : Value × Metadata :=
  let sd :=
    match setting_def with
    | some d => some d
    | Option.none => find_setting svc name
  let name :=
    match sd with
    | some d => d.name
    | Option.none => name
  let expandible_env :=
    match sd with
    | some d => if d.is_extra then extrasEnv else []
    | Option.none => []
  let got := managerGet w source name sd expandible_env
  let md : Metadata :=
    { name
      source := got.2.getD source
      setting := sd
      uncast_value := Option.none
      redacted := false }
  match sd with
  | Option.none => (got.1, md)
  | some d =>
    let va :=
      if d.kind == "object" && md.source == SettingValueStore.default_store
      then
        let a := assembleObject (d.name :: d.aliases) nested
        if a.1.isEmpty then (got.1, md)
        else (Value.obj a.1, { md with source := a.2 })
      else (got.1, md)
    castAndRedact d redacted va.1 va.2

/-- Embedding of `SettingsService.config_with_metadata`: resolve every
applicable definition (optionally filtered by name and by `extras`)
through the given single-setting resolver, strip the prefix from the
emitted names, and pair each value with its metadata envelope.  The shared
bulk manager of the source is the shared `StoreWorld` threaded through the
resolver. -/
def config_with_metadata_core (svc : SettingsService) (pfx : Option String)
    (extras : Option Bool)
    (getOne : SettingDefinition → Value × Metadata) : List ConfigEntry :=
  let defs := (definitions svc extras).1
  let defs :=
    match pfx with
    | Option.none => defs
    | some p => defs.filter (fun d => d.name.startsWith p)
  defs.map (fun d =>
    let r := getOne d
    let nm :=
      match pfx with
      | Option.none => d.name
      | some p => d.name.drop p.length
    (nm, r.1, r.2))

/-- One step of the `as_env` loop: skip null values, stringify through the
entry's definition, and emit one variable per non-negated generated
name. -/
def as_env_entry (svc : SettingsService) (envAcc : List (String × String))
    (e : ConfigEntry) : List (String × String) :=
  if e.2.1 = Value.null then envAcc
  else
    match e.2.2.setting with
    | Option.none => envAcc
    | some d =>
      let s := d.stringify_value e.2.1
      (setting_env_vars svc d true).foldl
        (fun acc ev => if ev.negated then acc else dictSet acc ev.key s)
        envAcc

/-- Embedding of `SettingsService.as_env` over an already-resolved full
config. -/
def as_env_core (svc : SettingsService) (cfg : List ConfigEntry) :
    List (String × String) :=
  cfg.foldl (as_env_entry svc) []

/-- Tied-knot embedding of the mutually recursive read path
(`get_with_metadata` / `config_with_metadata` / `as_env`).  The source
recursion is through nested resolution passes; the fuel argument bounds
that nesting depth (each nested pass consumes one unit), with an exhausted
pass resolving against empty nested data. -/
def get_with_metadata : Nat → SettingsService → StoreWorld → String →
    Bool → SettingValueStore → Option SettingDefinition → Value × Metadata
  | 0, svc, w, name, redacted, source, sd =>
    get_with_metadata_core svc w name redacted source sd (fun _ => []) []
  | fuel + 1, svc, w, name, redacted, source, sd =>
    get_with_metadata_core svc w name redacted source sd
      (fun key =>
        config_with_metadata_core svc (some (key ++ ".")) Option.none
          (fun d => get_with_metadata fuel svc w d.name redacted source (some d)))
      (as_env_core svc
        (config_with_metadata_core svc Option.none (some false)
          (fun d => get_with_metadata fuel svc w d.name redacted source (some d))))

/-- Metadata envelope built by the write path (`set_with_metadata`,
`unset`): the dict keys `name`, `path`, `store`, `setting`, `redacted`,
`uncast_value`; absent keys are `false` / `Option.none` as on the read
side.  The modelled store managers add no metadata of their own. -/
structure SetMetadata where
  name : String
  path : List String
  store : SettingValueStore
  setting : Option SettingDefinition
  redacted : Bool
  uncast_value : Option Value

/-- Embedding of `SettingsService.set_with_metadata` for a path given as a
list of segments (the source normalizes a bare string `p` to the
single-segment path `[p]` first).  The sentinel short-circuit returns
before any manager is constructed, so the store world is returned
untouched on that branch; otherwise the value is cast and handed to the
explicit store's manager, whose store-not-supported failure propagates. -/
def set_with_metadata (svc : SettingsService) (w : StoreWorld)
    (path : List String) (value : Value) (store : SettingValueStore) :
    Except StoreError (Value × SetMetadata × StoreWorld) :=
  let name := String.intercalate "." path
  let sd := find_setting svc name
  let md : SetMetadata :=
    { name, path, store, setting := sd
      redacted := false, uncast_value := Option.none }
  if value = REDACTED_VALUE then
    .ok (Value.null, { md with redacted := true }, w)
  else
    let cd :=
      match sd with
      | some d =>
        let cv := d.cast_value value
        if cv = value then (value, md)
        else (cv, { md with uncast_value := some value })
      | Option.none => (value, md)
    match managerSet w store name path cd.1 sd with
    | .error e => .error e
    | .ok w' => .ok (cd.1, cd.2, w')

/-- Embedding of `SettingsService.unset`: definition resolution, metadata
envelope, and delegation to the explicit store's manager, without any
casting. -/
def unset (svc : SettingsService) (w : StoreWorld) (path : List String)
    (store : SettingValueStore) : Except StoreError (SetMetadata × StoreWorld) :=
  let name := String.intercalate "." path
  let sd := find_setting svc name
  let md : SetMetadata :=
    { name, path, store, setting := sd
      redacted := false, uncast_value := Option.none }
  match managerUnset w store name path sd with
  | .error e => .error e
  | .ok w' => .ok (md, w')

/-- Embedding of `SettingsService.reset`: delegation to the explicit
store's manager; the returned metadata holds only the store. -/
def reset (w : StoreWorld) (store : SettingValueStore) :
    Except StoreError (SettingValueStore × StoreWorld) :=
  match managerReset w store with
  | .error e => .error e
  | .ok w' => .ok (store, w')

/-!
Reference-semantics model for the override default arguments of
`SettingsService.__init__` (claim C9).  In Python a default argument is
evaluated once, when the `def` statement builds the function object; every
call that omits the argument receives the very same object.  The two
literals `env_override={}` and `config_override={}` therefore denote two
module-lifetime dict objects, and `self.env_override = env_override`
stores a reference to the shared object, not a copy.  The model makes the
object identity explicit: a heap of dict objects addressed by index, and
service instances holding addresses.
-/

/-- Heap of Python dict objects, addressed by index. -/
structure PyHeap where
  cells : List (List (String × Value))
deriving Repr, DecidableEq

/-- Dereference of a dict object. -/
def PyHeap.readRef (h : PyHeap) (r : Nat) : List (String × Value) :=
  (h.cells.get? r).getD []

/-- In-place replacement of a dict object's contents. -/
def PyHeap.writeRef (h : PyHeap) (r : Nat) (d : List (String × Value)) :
    PyHeap :=
  ⟨h.cells.set r d⟩

/-- References held by one constructed `SettingsService` instance:
`self.env_override` and `self.config_override`. -/
structure ServiceRefs where
  env_override_ref : Nat
  config_override_ref : Nat
deriving Repr, DecidableEq

/-- Module initialization: the two default dict objects of
`SettingsService.__init__` (`env_override={}`, `config_override={}`) are
created once, at address 0 and 1, when the method object is built. -/
def initHeap : PyHeap := ⟨[[], []]⟩

/-- Embedding of `SettingsService.__init__` called without explicit
override arguments: the attribute assignments bind the default dict
objects themselves. -/
def newServiceDefaultOverrides : ServiceRefs :=
  { env_override_ref := 0, config_override_ref := 1 }

/-- Mutation of one instance's override mapping
(`service.env_override[k] = v`). -/
def setEnvOverrideEntry (h : PyHeap) (s : ServiceRefs) (k : String)
    (v : Value) : PyHeap :=
  h.writeRef s.env_override_ref
    (dictSet (h.readRef s.env_override_ref) k v)

/-- Observation of one instance's override mapping
(`service.env_override`). -/
def getEnvOverride (h : PyHeap) (s : ServiceRefs) : List (String × Value) :=
  h.readRef s.env_override_ref

/-- Canonical name together with the aliases of a definition: the keys
under which `find_setting` resolves it. -/
def defKeys (sd : SettingDefinition) : List String :=
  sd.name :: sd.aliases

/-- Key-disjointness of two definitions: no lookup key of the first is a
lookup key of the second. -/
def keysDisjoint (a b : SettingDefinition) : Bool :=
  (defKeys a).all (fun k => !((defKeys b).contains k))

/-- Well-formedness of a catalog as the spec's data model states it:
canonical names and aliases are unique across definitions. -/
def catalogDistinct : List SettingDefinition → Bool
  | [] => true
  | d :: rest => rest.all (fun e => keysDisjoint d e) && catalogDistinct rest

/-- First occurrence of each nested key in a flattened nested config: the
entries the object-assembly loop actually adds (later duplicates are
skipped). -/
def firstWinsAux (seen : List String) : List ConfigEntry → List ConfigEntry
  | [] => []
  | e :: t =>
    if seen.contains e.1 then firstWinsAux seen t
    else e :: firstWinsAux (e.1 :: seen) t

/-- Empty store world used by the concrete witnesses. -/
def emptyWorld : StoreWorld :=
  { config_override := [], env := [], dotenv := [], meltano_yml := [], db := [] }

/-- Concrete redacted string setting used by the witnesses. -/
def sampleDef : SettingDefinition :=
  { name := "sample"
    aliases := ["alias_one"]
    kind := "string"
    is_extra := false
    is_redacted := true
    default_value := Value.null
    cast_value := id
    stringify_value := fun v => match v with | .str s => s | _ => ""
    env_vars := fun ps => ps.map (fun p => { key := p ++ "_SAMPLE", negated := false }) }

/-- Concrete object-kind setting used by the witnesses. -/
def sampleObjDef : SettingDefinition :=
  { name := "foo"
    aliases := []
    kind := "object"
    is_extra := false
    is_redacted := false
    default_value := Value.null
    cast_value := id
    stringify_value := fun _ => ""
    env_vars := fun _ => [] }

/-- Concrete service instance used by the witnesses. -/
def sampleService : SettingsService :=
  { show_hidden := true
    env_override := []
    config_override := []
    decl_defs := [sampleDef, sampleObjDef]
    flat_meltano_yml_config := []
    env_prefix_list := ["MELTANO"]
    generic_env_name := Option.none
    setting_defs_cache := Option.none }

/-- Concrete metadata envelope used by the witnesses. -/
def sampleMetadata : Metadata :=
  { name := "sample"
    source := SettingValueStore.meltano_yml
    setting := some sampleDef
    uncast_value := Option.none
    redacted := false }

/-- Service with a pre-populated catalog cache, used by the witnesses. -/
def cachedSampleService : SettingsService :=
  { sampleService with setting_defs_cache := some [sampleDef] }

/-- Concrete flattened nested config used by the object-assembly witness. -/
def sampleNested : String → List ConfigEntry :=
  fun key =>
    if key = "foo" then
      [("x", Value.int 1, sampleMetadata), ("y", Value.int 2, sampleMetadata)]
    else []

/-!
Helper lemmas about the dictionary model and the folds of the service.
-/

theorem dictGet_append {α : Type} (l1 l2 : List (String × α)) (k : String) :
    dictGet (l1 ++ l2) k = (dictGet l1 k).or (dictGet l2 k) := by
  simp [dictGet, List.find?_append]
  cases l1.find? (fun e => e.1 == k) <;> simp

theorem dictGet_singleton {α : Type} (k j : String) (v : α) :
    dictGet [(j, v)] k = if j = k then some v else Option.none := by
  by_cases h : j = k <;> simp [dictGet, List.find?_cons, List.find?_nil, h]

theorem dictHas_iff_isSome {α : Type} (d : List (String × α)) (k : String) :
    dictHas d k = (dictGet d k).isSome := by
  rw [Bool.eq_iff_iff]
  simp [dictHas, dictGet, List.find?_isSome, List.any_eq_true]

theorem dictHas_append {α : Type} (l1 l2 : List (String × α)) (k : String) :
    dictHas (l1 ++ l2) k = (dictHas l1 k || dictHas l2 k) := by
  simp [dictHas]

theorem dictSet_mem {α : Type} (d : List (String × α)) (k : String) (v : α)
    (x : String × α) (hx : x ∈ dictSet d k v) : x ∈ d ∨ x = (k, v) := by
  unfold dictSet at hx
  by_cases h : dictHas d k = true
  · simp only [h, if_true] at hx
    obtain ⟨e, he, hfe⟩ := List.mem_map.mp hx
    by_cases hk : e.1 = k
    · right; rw [← hfe]; simp [hk]
    · left; rw [← hfe]; simpa [hk] using he
  · simp only [h, if_false, Bool.false_eq_true] at hx
    rcases List.mem_append.mp hx with h1 | h2
    · exact Or.inl h1
    · exact Or.inr (by simpa using h2)
/-- C10: for every dictionary, `unredact` returns the sub-dictionary of
exactly those entries whose value is not the sentinel `"(redacted)"`,
keeping every such entry (key and value) unchanged and in order; it is the
identity on dictionaries with no sentinel value, and it is idempotent. -/
theorem unredact_characterization :
    (∀ d : List (String × Value), ∀ k v,
      (k, v) ∈ unredact d ↔ ((k, v) ∈ d ∧ v ≠ REDACTED_VALUE))
    ∧ (∀ d : List (String × Value), List.Sublist (unredact d) d)
    ∧ (∀ d : List (String × Value),
        (∀ e ∈ d, e.2 ≠ REDACTED_VALUE) → unredact d = d)
    ∧ (∀ d : List (String × Value), unredact (unredact d) = unredact d) := by
  refine ⟨?_, ?_, ?_, ?_⟩
  · intro d k v
    simp [unredact, List.mem_filter]
  · intro d
    exact List.filter_sublist d
  · intro d h
    apply List.filter_eq_self.mpr
    intro e he
    simpa using h e he
  · intro d
    apply List.filter_eq_self.mpr
    intro e he
    exact (List.mem_filter.mp he).2

/-- C10 witness: `unredact` evaluated on a concrete dictionary holding one
sentinel entry, discharging the hypotheses of the characterization at a
concrete input. -/
theorem unredact_characterization_witness :
    ((("a", Value.int 1) ∈
        unredact [("a", Value.int 1), ("b", REDACTED_VALUE)])
      ↔ ((("a", Value.int 1) ∈
            [("a", Value.int 1), ("b", REDACTED_VALUE)])
          ∧ Value.int 1 ≠ REDACTED_VALUE))
    ∧ ((∀ e ∈ [("a", Value.int 1)], e.2 ≠ REDACTED_VALUE)
        ∧ unredact [("a", Value.int 1)] = [("a", Value.int 1)]) := by
  constructor
  · exact unredact_characterization.1
      [("a", Value.int 1), ("b", REDACTED_VALUE)] "a" (Value.int 1)
  · constructor
    · intro e he
      simp at he
      simp [he, REDACTED_VALUE]
    · exact unredact_characterization.2.2.1 [("a", Value.int 1)]
        (by intro e he; simp at he; simp [he, REDACTED_VALUE])


/-- C1: for every path and every value, if the value passed to
`set_with_metadata` literally equals the redaction sentinel string
`"(redacted)"`, the call returns a `None` value together with metadata
carrying `redacted: true`, and the store manager's `set` is never invoked,
so the underlying store world is returned unchanged. -/
theorem set_with_metadata_sentinel_noop (svc : SettingsService)
    (w : StoreWorld) (path : List String) (store : SettingValueStore) :
    set_with_metadata svc w path REDACTED_VALUE store
      = .ok (Value.null,
          { name := String.intercalate "." path
            path := path
            store := store
            setting := find_setting svc (String.intercalate "." path)
            redacted := true
            uncast_value := Option.none }, w) := by
  simp [set_with_metadata]

/-- C9: the claim states that two instances constructed without explicit
override arguments have independent override mappings.  The code contradicts
it: the default arguments of the constructor are mutable dict literals,
evaluated once, so every such instance aliases the same two dict objects;
mutating one instance's `env_override` is observable through the other
instance, while the shared default object started out empty. -/
theorem env_override_shared_across_default_instances :
    getEnvOverride initHeap newServiceDefaultOverrides = []
    ∧ getEnvOverride
        (setEnvOverrideEntry initHeap newServiceDefaultOverrides
          "X" (Value.str "1"))
        newServiceDefaultOverrides
      = [("X", Value.str "1")] := by
  constructor <;> rfl

/-- C3: the write operations reject the virtual `AUTO` store — a set with a
non-sentinel value, an unset and a reset against `AUTO` all fail with the
store-not-supported condition and never persist anything — and a write call
that does succeed can only have used the concrete store the caller named. -/
theorem writes_never_resolve_auto (svc : SettingsService) (w : StoreWorld)
    (path : List String) (value : Value) (hv : value ≠ REDACTED_VALUE) :
    (set_with_metadata svc w path value SettingValueStore.auto
        = .error (StoreError.not_supported SettingValueStore.auto))
    ∧ (unset svc w path SettingValueStore.auto
        = .error (StoreError.not_supported SettingValueStore.auto))
    ∧ (reset w SettingValueStore.auto
        = .error (StoreError.not_supported SettingValueStore.auto))
    ∧ (∀ (store : SettingValueStore) r,
        set_with_metadata svc w path value store = .ok r →
          store ≠ SettingValueStore.auto) := by
  refine ⟨?_, ?_, ?_, ?_⟩
  · simp [set_with_metadata, hv, managerSet]
  · simp [unset, managerUnset]
  · simp [reset, managerReset]
  · intro store r hok hstore
    subst hstore
    rw [show (set_with_metadata svc w path value SettingValueStore.auto)
        = .error (StoreError.not_supported SettingValueStore.auto) from ?_] at hok
    · exact Except.noConfusion hok
    · simp [set_with_metadata, hv, managerSet]

/-- C3 witness: a concrete non-sentinel write against `AUTO` fails with the
store-not-supported condition, through the theorem at a concrete input. -/
theorem writes_never_resolve_auto_witness :
    Value.int 1 ≠ REDACTED_VALUE
    ∧ set_with_metadata sampleService emptyWorld ["sample"] (Value.int 1)
        SettingValueStore.auto
      = .error (StoreError.not_supported SettingValueStore.auto) := by
  refine ⟨by decide, ?_⟩
  exact (writes_never_resolve_auto sampleService emptyWorld ["sample"]
    (Value.int 1) (by decide)).1

/-- C6: `find_setting` signals setting-missing (modelled as `Option.none`)
exactly when no definition of the catalog has the requested name as its
canonical name or among its aliases; and `get_with_metadata` on such a
missing name does not fail but proceeds with no definition: the manager's
raw value is returned with no casting and no redaction, and the metadata
records an empty setting. -/
theorem find_setting_missing_recoverable (svc : SettingsService)
    (name : String) :
    (find_setting svc name = Option.none
      ↔ ∀ d ∈ (definitions svc Option.none).1,
          d.name ≠ name ∧ name ∉ d.aliases)
    ∧ (find_setting svc name = Option.none →
        ∀ (w : StoreWorld) (redacted : Bool) (source : SettingValueStore)
          (nested : String → List ConfigEntry) (ee : List (String × String)),
          get_with_metadata_core svc w name redacted source Option.none
              nested ee
            = ((managerGet w source name Option.none []).1,
                { name := name
                  source := (managerGet w source name Option.none []).2.getD
                    source
                  setting := Option.none
                  uncast_value := Option.none
                  redacted := false })) := by
  constructor
  · rw [show find_setting svc name
        = ((definitions svc Option.none).1).find?
            (fun s => s.name == name || s.aliases.contains name) from rfl]
    rw [List.find?_eq_none]
    constructor
    · intro h d hd
      have := h d hd
      simp at this
      exact this
    · intro h d hd
      have := h d hd
      simp [this.1, this.2]
  · intro hnone w redacted source nested ee
    simp [get_with_metadata_core, hnone]

/-- C6 witness: the name of no definition of the concrete catalog, showing
the missing-setting read at a concrete input through the theorem. -/
theorem find_setting_missing_recoverable_witness :
    find_setting sampleService "nope" = Option.none
    ∧ get_with_metadata_core sampleService emptyWorld "nope" true
        SettingValueStore.auto Option.none (fun _ => []) []
      = ((managerGet emptyWorld SettingValueStore.auto "nope" Option.none
            []).1,
          { name := "nope"
            source := (managerGet emptyWorld SettingValueStore.auto "nope"
                Option.none []).2.getD SettingValueStore.auto
            setting := Option.none
            uncast_value := Option.none
            redacted := false }) := by
  refine ⟨rfl, ?_⟩
  exact (find_setting_missing_recoverable sampleService "nope").2 rfl
    emptyWorld true SettingValueStore.auto (fun _ => []) []

/-- Resolution lemma: in a catalog whose canonical names and aliases are
pairwise disjoint across definitions, the linear search of `find_setting`
returns exactly the definition owning the searched key. -/
theorem find_matching_of_distinct (l : List SettingDefinition)
    (hdist : catalogDistinct l = true) (d : SettingDefinition) (hd : d ∈ l)
    (k : String) (hk : k ∈ defKeys d) :
    l.find? (fun s => s.name == k || s.aliases.contains k) = some d := by
  induction l with
  | nil => cases hd
  | cons e t ih =>
    have hdist' : (t.all (fun x => keysDisjoint e x)) = true
        ∧ catalogDistinct t = true := by
      simpa [catalogDistinct] using hdist
    rcases List.mem_cons.mp hd with rfl | hdt
    · have hpred : (d.name == k || d.aliases.contains k) = true := by
        rcases List.mem_cons.mp hk with rfl | hal
        · simp
        · simp [hal]
      rw [List.find?_cons, hpred]
    · have hdisj := List.all_eq_true.mp hdist'.1 d hdt
      have hke : k ∉ defKeys e := by
        intro hke
        have := List.all_eq_true.mp hdisj k hke
        simp [hk] at this
      have hpred : (e.name == k || e.aliases.contains k) = false := by
        have h1 : ¬(e.name = k) := fun h => hke (by simp [defKeys, h])
        have h2 : k ∉ e.aliases := fun h => hke (by simp [defKeys, h])
        simp [h1, h2]
      rw [List.find?_cons, hpred]
      exact ih hdist'.2 hdt

/-- C5: in a well-formed catalog (names and aliases unique across
definitions, as the spec's data model requires), `find_setting` applied to
any alias of a definition returns that same definition as `find_setting`
applied to its canonical name, and every successful lookup is an exact
match against the found definition's canonical name or aliases. -/
theorem find_setting_alias_canonical_agree (svc : SettingsService)
    (hdist : catalogDistinct (definitions svc Option.none).1 = true)
    (d : SettingDefinition) (hd : d ∈ (definitions svc Option.none).1)
    (a : String) (ha : a ∈ d.aliases) :
    find_setting svc a = some d
    ∧ find_setting svc d.name = some d
    ∧ (∀ (n : String) (d' : SettingDefinition),
        find_setting svc n = some d' →
          (d'.name = n ∨ n ∈ d'.aliases)
            ∧ d' ∈ (definitions svc Option.none).1) := by
  refine ⟨?_, ?_, ?_⟩
  · exact find_matching_of_distinct _ hdist d hd a (by simp [defKeys, ha])
  · exact find_matching_of_distinct _ hdist d hd d.name (by simp [defKeys])
  · intro n d' hfind
    have hfind' : ((definitions svc Option.none).1).find?
        (fun s => s.name == n || s.aliases.contains n) = some d' := hfind
    constructor
    · have := List.find?_some hfind'
      simpa using this
    · exact List.mem_of_find?_eq_some hfind'

/-- C5 witness: the concrete catalog is well-formed and the alias of the
concrete redacted setting resolves to it, through the theorem. -/
theorem find_setting_alias_canonical_agree_witness :
    catalogDistinct (definitions sampleService Option.none).1 = true
    ∧ find_setting sampleService "alias_one" = some sampleDef := by
  refine ⟨rfl, ?_⟩
  exact (find_setting_alias_canonical_agree sampleService rfl sampleDef
    (by
      rw [show (definitions sampleService Option.none).1
          = [sampleDef, sampleObjDef] from rfl]
      simp)
    "alias_one" (by simp [sampleDef])).1


/-- C8: `definitions` returns the declared catalog with hidden definitions
dropped unless the service shows hidden settings, extended with definitions
synthesized for flattened-config keys that have no declared definition;
the merged catalog is cached in the instance and later calls answer from
the cache; `extras = some true` filters to extra settings only and
`extras = some false` to non-extra settings only. -/
theorem definitions_catalog_behavior (svc : SettingsService) :
    (svc.setting_defs_cache = Option.none →
      ∀ d, d ∈ (definitions svc Option.none).1 ↔
        ((d ∈ svc.decl_defs ∧ (d.kind ≠ "hidden" ∨ svc.show_hidden = true))
          ∨ ∃ kv ∈ svc.flat_meltano_yml_config,
              (∀ d' ∈ svc.decl_defs, d'.name ≠ kv.1) ∧ d = missingDef kv.1))
    ∧ (∀ L, svc.setting_defs_cache = some L →
        definitions svc Option.none = (L, svc))
    ∧ ((definitions svc Option.none).2.setting_defs_cache
        = some (definitions svc Option.none).1)
    ∧ ((definitions svc (some true)).1
        = ((definitions svc Option.none).1).filter (fun s => s.is_extra))
    ∧ ((definitions svc (some false)).1
        = ((definitions svc Option.none).1).filter (fun s => !s.is_extra)) := by
  refine ⟨?_, ?_, ?_, ?_, ?_⟩
  · intro hc d
    simp only [definitions, hc, definitionsMerge, from_missing,
      List.mem_append, List.mem_filter, List.mem_map]
    constructor
    · rintro (⟨hmem, hside⟩ | ⟨kv, ⟨hkv, hany⟩, heq⟩)
      · exact Or.inl ⟨hmem, by simpa using hside⟩
      · right
        refine ⟨kv, hkv, ?_, heq.symm⟩
        intro d' hd' hname
        have hfalse : (svc.decl_defs.any fun x => x.name == kv.1) = false := by
          simpa using hany
        have htrue : (svc.decl_defs.any fun x => x.name == kv.1) = true := by
          rw [List.any_eq_true]
          exact ⟨d', hd', by simp [hname]⟩
        rw [hfalse] at htrue
        exact Bool.noConfusion htrue
    · rintro (⟨hmem, hside⟩ | ⟨kv, hkv, hnone, heq⟩)
      · refine Or.inl ⟨hmem, ?_⟩
        rcases hside with h1 | h1 <;> simp [h1]
      · right
        refine ⟨kv, ⟨hkv, ?_⟩, heq.symm⟩
        simp only [Bool.not_eq_true', List.any_eq_false]
        intro d' hd'
        simpa using hnone d' hd'
  · intro L hc
    simp [definitions, hc]
  · rcases hcase : svc.setting_defs_cache with _ | L <;>
      simp [definitions, hcase]
  · rcases hcase : svc.setting_defs_cache with _ | L <;>
      simp [definitions, hcase]
  · rcases hcase : svc.setting_defs_cache with _ | L <;>
      simp [definitions, hcase]

/-- C8 witness: on a service whose catalog cache is already populated,
`definitions` answers from the cache and leaves the instance unchanged,
through the theorem at a concrete input. -/
theorem definitions_catalog_behavior_witness :
    definitions cachedSampleService Option.none
      = ([sampleDef], cachedSampleService) :=
  (definitions_catalog_behavior cachedSampleService).2.1 [sampleDef] rfl

/-- Fold lemma for the inner loop of `as_env`: every binding of the
accumulated environment either was already present or was emitted through
a non-negated generated variable name. -/
theorem as_env_inner_mem (s : String) (vars : List EnvVar) :
    ∀ (env0 : List (String × String)) (x : String × String),
      x ∈ vars.foldl
          (fun acc ev => if ev.negated then acc else dictSet acc ev.key s)
          env0 →
      x ∈ env0 ∨ ∃ ev ∈ vars, ev.negated = false ∧ x = (ev.key, s) := by
  induction vars with
  | nil => intro env0 x hx; exact Or.inl hx
  | cons ev t ih =>
    intro env0 x hx
    simp only [List.foldl_cons] at hx
    by_cases hn : ev.negated = true
    · rw [if_pos hn] at hx
      rcases ih _ x hx with h | ⟨ev', hev', hneg, hxx⟩
      · exact Or.inl h
      · exact Or.inr ⟨ev', List.mem_cons_of_mem _ hev', hneg, hxx⟩
    · rw [if_neg hn] at hx
      rcases ih _ x hx with h | ⟨ev', hev', hneg, hxx⟩
      · rcases dictSet_mem _ _ _ _ h with h1 | h2
        · exact Or.inl h1
        · exact Or.inr ⟨ev, List.mem_cons_self _ _, by simpa using hn, h2⟩
      · exact Or.inr ⟨ev', List.mem_cons_of_mem _ hev', hneg, hxx⟩

/-- Per-entry lemma for `as_env`: a binding produced by one config entry
comes from a non-null value of a present definition, through one of its
non-negated variable names. -/
theorem as_env_entry_mem (svc : SettingsService)
    (env0 : List (String × String)) (e : ConfigEntry) (x : String × String)
    (hx : x ∈ as_env_entry svc env0 e) :
    x ∈ env0
    ∨ ∃ d, e.2.2.setting = some d ∧ e.2.1 ≠ Value.null
        ∧ ∃ ev ∈ setting_env_vars svc d true, ev.negated = false
            ∧ x = (ev.key, d.stringify_value e.2.1) := by
  unfold as_env_entry at hx
  by_cases hv : e.2.1 = Value.null
  · rw [if_pos hv] at hx
    exact Or.inl hx
  · rw [if_neg hv] at hx
    cases hset : e.2.2.setting with
    | none => rw [hset] at hx; exact Or.inl hx
    | some d =>
      rw [hset] at hx
      rcases as_env_inner_mem _ _ _ x hx with h | ⟨ev, hev, hneg, hxx⟩
      · exact Or.inl h
      · exact Or.inr ⟨d, rfl, hv, ev, hev, hneg, hxx⟩

/-- Fold lemma for the outer loop of `as_env` over the resolved config. -/
theorem as_env_foldl_mem (svc : SettingsService) (cfg : List ConfigEntry) :
    ∀ (env0 : List (String × String)) (x : String × String),
      x ∈ cfg.foldl (as_env_entry svc) env0 →
      x ∈ env0
      ∨ ∃ e ∈ cfg, ∃ d, e.2.2.setting = some d ∧ e.2.1 ≠ Value.null
          ∧ ∃ ev ∈ setting_env_vars svc d true, ev.negated = false
              ∧ x = (ev.key, d.stringify_value e.2.1) := by
  induction cfg with
  | nil => intro env0 x hx; exact Or.inl hx
  | cons e t ih =>
    intro env0 x hx
    simp only [List.foldl_cons] at hx
    rcases ih _ x hx with h | ⟨e', he', rest⟩
    · rcases as_env_entry_mem svc env0 e x h with h0 | ⟨d, hd, hv, rest'⟩
      · exact Or.inl h0
      · exact Or.inr ⟨e, List.mem_cons_self _ _, d, hd, hv, rest'⟩
    · exact Or.inr ⟨e', List.mem_cons_of_mem _ he', rest⟩

/-- C7: every binding of the mapping `as_env` builds comes from a config
entry whose resolved value is non-null (null-valued settings contribute no
entry), was emitted under a generated variable name that is not flagged
negated, and its value is the entry's definition's stringification of the
resolved value. -/
theorem as_env_projection (svc : SettingsService) (cfg : List ConfigEntry)
    (k s : String) (h : (k, s) ∈ as_env_core svc cfg) :
    ∃ e ∈ cfg, ∃ d, e.2.2.setting = some d ∧ e.2.1 ≠ Value.null
      ∧ s = d.stringify_value e.2.1
      ∧ ∃ ev ∈ setting_env_vars svc d true, ev.negated = false
          ∧ ev.key = k := by
  rcases as_env_foldl_mem svc cfg [] (k, s) h with
    h0 | ⟨e, he, d, hd, hv, ev, hev, hneg, hx⟩
  · cases h0
  · rw [Prod.ext_iff] at hx
    exact ⟨e, he, d, hd, hv, hx.2, ev, hev, hneg, hx.1.symm⟩

/-- C7 witness: a concrete one-entry non-null config emits exactly the
non-negated prefixed variable with the stringified value, through the
theorem at a concrete input. -/
theorem as_env_projection_witness :
    (("MELTANO_SAMPLE", "x") ∈
        as_env_core sampleService [("sample", Value.str "x", sampleMetadata)])
    ∧ ∃ e ∈ [("sample", Value.str "x", sampleMetadata)],
        ∃ d, e.2.2.setting = some d ∧ e.2.1 ≠ Value.null
          ∧ "x" = d.stringify_value e.2.1
          ∧ ∃ ev ∈ setting_env_vars sampleService d true, ev.negated = false
              ∧ ev.key = "MELTANO_SAMPLE" := by
  have hlist :
      as_env_core sampleService [("sample", Value.str "x", sampleMetadata)]
        = [("MELTANO_SAMPLE", "x")] := rfl
  refine ⟨by rw [hlist]; simp, ?_⟩
  exact as_env_projection sampleService
    [("sample", Value.str "x", sampleMetadata)] "MELTANO_SAMPLE" "x"
    (by rw [hlist]; simp)

/-- Behaviour of the cast-then-redact tail of the read path: `uncast_value`
is set exactly when casting changed the value and records the pre-cast
input; redaction tests the post-cast value and replaces it by the sentinel,
marking the metadata, and only then. -/
theorem castAndRedact_spec (d : SettingDefinition) (redacted : Bool)
    (raw : Value) (md : Metadata) (hu : md.uncast_value = Option.none)
    (hr : md.redacted = false) :
    ∀ v m, castAndRedact d redacted raw md = (v, m) →
      ((m.uncast_value ≠ Option.none ↔ d.cast_value raw ≠ raw)
       ∧ (∀ u, m.uncast_value = some u → u = raw)
       ∧ (redacted = true → d.is_redacted = true →
           (d.cast_value raw).truthy = true →
             v = REDACTED_VALUE ∧ m.redacted = true)
       ∧ ((redacted && (d.cast_value raw).truthy && d.is_redacted) = false →
           v = d.cast_value raw ∧ m.redacted = false)) := by
  intro v m hvm
  simp only [castAndRedact] at hvm
  by_cases hc : d.cast_value raw = raw
  · simp only [if_pos hc] at hvm
    by_cases hg : (redacted && raw.truthy && d.is_redacted) = true
    · rw [if_pos hg] at hvm
      cases hvm
      refine ⟨by simp [hu, hc], by simp [hu], fun _ _ _ => ⟨rfl, rfl⟩, ?_⟩
      intro hfalse
      rw [hc] at hfalse
      rw [hg] at hfalse
      exact Bool.noConfusion hfalse
    · rw [if_neg hg] at hvm
      cases hvm
      refine ⟨by simp [hu, hc], by simp [hu], ?_, fun _ => ⟨hc.symm, hr⟩⟩
      intro h1 h2 h3
      rw [hc] at h3
      exact (hg (by rw [h1, h2, h3]; rfl)).elim
  · simp only [if_neg hc] at hvm
    by_cases hg : (redacted && (d.cast_value raw).truthy && d.is_redacted)
        = true
    · rw [if_pos hg] at hvm
      cases hvm
      refine ⟨by simp [hc], by simp, fun _ _ _ => ⟨rfl, rfl⟩, ?_⟩
      intro hfalse
      rw [hg] at hfalse
      exact Bool.noConfusion hfalse
    · rw [if_neg hg] at hvm
      cases hvm
      refine ⟨by simp [hc], by simp, ?_, fun _ => ⟨rfl, hr⟩⟩
      intro h1 h2 h3
      exact (hg (by rw [h1, h2, h3]; rfl)).elim

/-- C2: on the read path with a resolved definition (here reading a raw
value held by the environment store, whose source is not the declared
default, so object assembly does not interfere), casting is applied before
redaction: `uncast_value` is present in the returned metadata iff the cast
output differs from the raw store value, and when present it equals that
pre-cast raw value and is never the sentinel; when redaction is requested,
the definition is marked redacted and the post-cast value is truthy, the
returned value is the sentinel and the metadata carries `redacted: true`;
when the redaction guard fails the returned value is exactly the cast
output, unredacted. -/
theorem cast_precedes_redaction (svc : SettingsService) (w : StoreWorld)
    (d : SettingDefinition) (redacted : Bool) (raw : Value)
    (nested : String → List ConfigEntry) (ee : List (String × String))
    (hread : dictGet w.env d.name = some raw)
    (hraw : raw ≠ REDACTED_VALUE) :
    ∀ v m,
      get_with_metadata_core svc w d.name redacted SettingValueStore.env
          (some d) nested ee = (v, m) →
      ((m.uncast_value ≠ Option.none ↔ d.cast_value raw ≠ raw)
       ∧ (∀ u, m.uncast_value = some u → u = raw ∧ u ≠ REDACTED_VALUE)
       ∧ (redacted = true → d.is_redacted = true →
           (d.cast_value raw).truthy = true →
             v = REDACTED_VALUE ∧ m.redacted = true)
       ∧ ((redacted && (d.cast_value raw).truthy && d.is_redacted) = false →
           v = d.cast_value raw ∧ m.redacted = false)) := by
  intro v m hvm
  have hred : get_with_metadata_core svc w d.name redacted
      SettingValueStore.env (some d) nested ee
      = castAndRedact d redacted raw
          { name := d.name, source := SettingValueStore.env,
            setting := some d, uncast_value := Option.none,
            redacted := false } := by
    simp [get_with_metadata_core, managerGet, StoreWorld.read, hread]
  rw [hred] at hvm
  have H := castAndRedact_spec d redacted raw
    { name := d.name, source := SettingValueStore.env, setting := some d,
      uncast_value := Option.none, redacted := false } rfl rfl v m hvm
  exact ⟨H.1,
    fun u hu => ⟨H.2.1 u hu, by rw [H.2.1 u hu]; exact hraw⟩,
    H.2.2.1, H.2.2.2⟩

/-- C2 witness: a concrete redacted read of a secret string through the
theorem at a concrete input: the value comes back as the sentinel with
`redacted: true` while the store held a non-sentinel raw value. -/
theorem cast_precedes_redaction_witness :
    Value.str "secret" ≠ REDACTED_VALUE
    ∧ REDACTED_VALUE = REDACTED_VALUE
    ∧ Metadata.redacted
        { name := "sample", source := SettingValueStore.env,
          setting := some sampleDef, uncast_value := Option.none,
          redacted := true } = true := by
  refine ⟨by decide, ?_⟩
  have H := (cast_precedes_redaction sampleService
    { config_override := [], env := [("sample", Value.str "secret")],
      dotenv := [], meltano_yml := [], db := [] }
    sampleDef true (Value.str "secret") (fun _ => []) []
    rfl (by decide)
    REDACTED_VALUE
    { name := "sample", source := SettingValueStore.env,
      setting := some sampleDef, uncast_value := Option.none,
      redacted := true }
    rfl).2.2.1 rfl rfl (by decide)
  exact ⟨H.1, H.2⟩

/-- Fold lemma for the object-assembly loop: lookup in the assembled
mapping returns the first occurrence of the key across the processed
entries (entries under an already-present key are skipped). -/
theorem assemble_foldl_get (l : List ConfigEntry) :
    ∀ (ov : List (String × Value)) (os : SettingValueStore) (k : String),
      dictGet (l.foldl assembleStep (ov, os)).1 k
        = match dictGet ov k with
          | some v => some v
          | Option.none =>
            (l.find? (fun e => e.1 == k)).map (fun e => e.2.1) := by
  induction l with
  | nil =>
    intro ov os k
    simp only [List.foldl_nil, List.find?_nil]
    cases dictGet ov k <;> rfl
  | cons e t ih =>
    intro ov os k
    simp only [List.foldl_cons]
    by_cases hhas : dictHas ov e.1 = true
    · have hstep : assembleStep (ov, os) e = (ov, os) := by
        simp [assembleStep, hhas]
      rw [hstep, ih]
      rcases hget : dictGet ov k with _ | u
      · have hne : (e.1 == k) = false := by
          by_cases hek : e.1 = k
          · exfalso
            rw [dictHas_iff_isSome, hek, hget] at hhas
            exact Bool.noConfusion hhas
          · simp [hek]
        simp [List.find?_cons, hne]
      · simp
    · have hstep : assembleStep (ov, os) e
          = (ov ++ [(e.1, e.2.1)], promoteSource os e.2.2.source) := by
        simp [assembleStep, hhas]
      rw [hstep, ih]
      rcases hget : dictGet ov k with _ | u
      · by_cases hek : e.1 = k
        · have hko : (e.1 == k) = true := by simp [hek]
          simp [dictGet_append, hget, dictGet_singleton, hek,
            List.find?_cons, hko]
        · have hko : (e.1 == k) = false := by simp [hek]
          simp [dictGet_append, hget, dictGet_singleton, hek,
            List.find?_cons, hko]
      · simp [dictGet_append, hget]

/-- Fold lemma for the object-assembly loop: the assembled source is the
promotion fold of the sources of the first-occurrence entries. -/
theorem assemble_foldl_src (l : List ConfigEntry) :
    ∀ (ov : List (String × Value)) (os : SettingValueStore)
      (seen : List String),
      (∀ k, dictHas ov k = seen.contains k) →
      (l.foldl assembleStep (ov, os)).2
        = ((firstWinsAux seen l).map (fun e => e.2.2.source)).foldl
            promoteSource os := by
  induction l with
  | nil => intro ov os seen hseen; rfl
  | cons e t ih =>
    intro ov os seen hseen
    simp only [List.foldl_cons, firstWinsAux]
    by_cases hs : seen.contains e.1 = true
    · have hhas : dictHas ov e.1 = true := by rw [hseen]; exact hs
      have hstep : assembleStep (ov, os) e = (ov, os) := by
        simp [assembleStep, hhas]
      rw [hstep, if_pos hs]
      exact ih ov os seen hseen
    · have hhas : dictHas ov e.1 = false := by
        rw [hseen]
        simpa using hs
      have hstep : assembleStep (ov, os) e
          = (ov ++ [(e.1, e.2.1)], promoteSource os e.2.2.source) := by
        simp [assembleStep, hhas]
      rw [hstep, if_neg hs, List.map_cons, List.foldl_cons]
      apply ih
      intro k
      rw [dictHas_append, hseen k, Bool.eq_iff_iff]
      simp only [dictHas, List.any_cons, List.any_nil, Bool.or_false,
        Bool.or_eq_true, beq_iff_eq]
      simp only [List.contains, List.elem_iff, List.mem_cons]
      constructor
      · rintro (h | h)
        · exact Or.inr h
        · exact Or.inl h.symm
      · rintro (h | h)
        · exact Or.inr h.symm
        · exact Or.inl h

/-- The promotion fold lands on the initial source or one of the folded
sources. -/
theorem foldl_promote_mem (ss : List SettingValueStore) :
    ∀ s0, ss.foldl promoteSource s0 ∈ s0 :: ss := by
  induction ss with
  | nil => intro s0; simp
  | cons e t ih =>
    intro s0
    rw [List.foldl_cons]
    rcases List.mem_cons.mp (ih (promoteSource s0 e)) with h | h
    · by_cases ho : SettingValueStore.overrides e s0 = true
      · have hpe : promoteSource s0 e = e := by simp [promoteSource, ho]
        rw [hpe] at h ⊢
        rw [h]
        exact List.mem_cons_of_mem _ (List.mem_cons_self _ _)
      · have hpe : promoteSource s0 e = s0 := by simp [promoteSource, ho]
        rw [hpe] at h ⊢
        rw [h]
        exact List.mem_cons_self _ _
    · exact List.mem_cons_of_mem _ (List.mem_cons_of_mem _ h)

/-- The promotion fold reaches a source of precedence at least as high as
the initial source and every folded source. -/
theorem foldl_promote_min (ss : List SettingValueStore) :
    ∀ s0 t, t ∈ s0 :: ss →
      (ss.foldl promoteSource s0).idx ≤ t.idx := by
  induction ss with
  | nil =>
    intro s0 t ht
    rcases List.mem_cons.mp ht with rfl | h
    · simp
    · cases h
  | cons e u ih =>
    intro s0 t ht
    rw [List.foldl_cons]
    have hp : (promoteSource s0 e).idx ≤ s0.idx
        ∧ (promoteSource s0 e).idx ≤ e.idx := by
      by_cases ho : SettingValueStore.overrides e s0 = true
      · have hlt : e.idx < s0.idx := by
          simpa [SettingValueStore.overrides] using ho
        rw [show promoteSource s0 e = e from by simp [promoteSource, ho]]
        omega
      · have hge : ¬(e.idx < s0.idx) := by
          simpa [SettingValueStore.overrides] using ho
        rw [show promoteSource s0 e = s0 from by simp [promoteSource, ho]]
        omega
    have hself := ih (promoteSource s0 e) (promoteSource s0 e)
      (List.mem_cons_self _ _)
    rcases List.mem_cons.mp ht with rfl | h
    · exact le_trans hself hp.1
    · rcases List.mem_cons.mp h with rfl | h2
      · exact le_trans hself hp.2
      · exact ih (promoteSource s0 e) t (List.mem_cons_of_mem _ h2)

/-- C4: for a setting of kind `object` resolving to the plain default
source, the read path assembles the value from the nested dotted config of
the definition's name and aliases: lookup in the assembled mapping is the
first occurrence of the nested key across those flattened configs (first
occurrence wins); the assembled source is the best-precedence promotion of
the declared default by the first-occurrence entries' sources (it is one
of those and beats them all); and the read path substitutes the assembled
mapping and source only when the mapping is non-empty, the manager's
default value and default source surviving otherwise. -/
theorem object_assembly (svc : SettingsService) (w : StoreWorld)
    (d : SettingDefinition) (redacted : Bool)
    (nested : String → List ConfigEntry) (ee : List (String × String))
    (hk : d.kind = "object") :
    (∀ k, dictGet (assembleObject (d.name :: d.aliases) nested).1 k
        = ((((d.name :: d.aliases).map nested).flatten).find?
            (fun e => e.1 == k)).map (fun e => e.2.1))
    ∧ ((assembleObject (d.name :: d.aliases) nested).2
        ∈ SettingValueStore.default_store ::
          (firstWinsAux [] (((d.name :: d.aliases).map nested).flatten)).map
            (fun e => e.2.2.source))
    ∧ (∀ t ∈ SettingValueStore.default_store ::
          (firstWinsAux [] (((d.name :: d.aliases).map nested).flatten)).map
            (fun e => e.2.2.source),
        ((assembleObject (d.name :: d.aliases) nested).2).idx ≤ t.idx)
    ∧ (get_with_metadata_core svc w d.name redacted
          SettingValueStore.default_store (some d) nested ee
        = if (assembleObject (d.name :: d.aliases) nested).1.isEmpty then
            castAndRedact d redacted d.default_value
              { name := d.name, source := SettingValueStore.default_store,
                setting := some d, uncast_value := Option.none,
                redacted := false }
          else
            castAndRedact d redacted
              (Value.obj (assembleObject (d.name :: d.aliases) nested).1)
              { name := d.name,
                source := (assembleObject (d.name :: d.aliases) nested).2,
                setting := some d, uncast_value := Option.none,
                redacted := false }) := by
  have hsrc : (assembleObject (d.name :: d.aliases) nested).2
      = ((firstWinsAux []
            (((d.name :: d.aliases).map nested).flatten)).map
          (fun e => e.2.2.source)).foldl promoteSource
          SettingValueStore.default_store :=
    assemble_foldl_src _ [] SettingValueStore.default_store []
      (fun _ => rfl)
  refine ⟨?_, ?_, ?_, ?_⟩
  · intro k
    have h := assemble_foldl_get
      (((d.name :: d.aliases).map nested).flatten) []
      SettingValueStore.default_store k
    rw [show dictGet ([] : List (String × Value)) k = Option.none from rfl]
      at h
    exact h
  · rw [hsrc]
    exact foldl_promote_mem _ _
  · intro t ht
    rw [hsrc]
    exact foldl_promote_min _ _ t ht
  · have hkind : (d.kind == "object") = true := by simp [hk]
    by_cases he : (assembleObject (d.name :: d.aliases) nested).1.isEmpty
        = true
    · simp only [List.isEmpty_iff] at he
      simp [get_with_metadata_core, managerGet, hkind, he]
    · simp only [List.isEmpty_iff] at he
      simp [get_with_metadata_core, managerGet, hkind, he]

/-- C4 witness: a concrete object-kind setting with nested entries under
its name: the assembled mapping's lookup agrees with the first-occurrence
search, through the theorem at a concrete input. -/
theorem object_assembly_witness :
    sampleObjDef.kind = "object"
    ∧ dictGet (assembleObject (sampleObjDef.name :: sampleObjDef.aliases)
          sampleNested).1 "x"
      = ((((sampleObjDef.name :: sampleObjDef.aliases).map
            sampleNested).flatten).find? (fun e => e.1 == "x")).map
          (fun e => e.2.1) := by
  refine ⟨rfl, ?_⟩
  exact (object_assembly sampleService emptyWorld sampleObjDef false
    sampleNested [] rfl).1 "x"
